import Mathlib

/-!
Verification development for the telly-chat memory subsystem and the
conversation-history frontend helpers.

The frontend definitions are shallow embeddings of
`frontend/components/ConversationHistory.tsx`.  The memory-subsystem
definitions (short-term buffer, long-term store, episodic recorder,
transcript store) are modelled from the specification, since the backend
implementation files are not part of the source tree.
-/

namespace TellyChat

/-! ## Frontend: ConversationHistory.tsx -/

/-- Whitespace test used by the title cleanup, standing for the character
class matched by a backslash-s in the source regex. -/
def jsWhitespace (c : Char) : Bool := c.isWhitespace

/-- Strip a case-insensitive leading `Chat:` marker together with the
whitespace after it, embedding the first replace of `formatTitle`. -/
def stripChatTag (l : List Char) : List Char :=
  if (l.take 5).map Char.toLower = "chat:".data then
    (l.drop 5).dropWhile jsWhitespace
  else l

/-- Match a literal character sequence, returning the remainder on success. -/
def stripLit : List Char → List Char → Option (List Char)
  | [], l => some l
  | _ :: _, [] => none
  | p :: ps, c :: cs => if c = p then stripLit ps cs else none

/-- Match an `http` or `https` scheme followed by `://` at the head. -/
def stripScheme (l : List Char) : Option (List Char) :=
  match stripLit "https://".data l with
  | some r => some r
  | none => stripLit "http://".data l

/-- Consume an optional `www.` marker. -/
def stripWww (l : List Char) : List Char :=
  match stripLit "www.".data l with
  | some r => r
  | none => l

/-- ASCII word characters and dash, the character class of a YouTube video
id in the source regex. -/
def isWordDash (c : Char) : Bool := c.isAlphanum || c == '_' || c == '-'

/-- Try to match a YouTube watch URL at the head of the list, returning the
remainder after the video id. -/
def tryYoutubeUrl (l : List Char) : Option (List Char) :=
  match stripScheme l with
  | none => none
  | some r1 =>
    let r2 := stripWww r1
    match stripLit "youtube.com/watch?v=".data r2 with
    | none => none
    | some r3 =>
      let ident := r3.takeWhile isWordDash
      if ident.isEmpty then none else some (r3.drop ident.length)

/-- Scan step of the global YouTube-URL replacement; fuel bounds the number
of steps, each of which consumes at least one character. -/
def replaceYoutubeAux : Nat → List Char → List Char
  | 0, l => l
  | _ + 1, [] => []
  | fuel + 1, c :: cs =>
    match tryYoutubeUrl (c :: cs) with
    | some rest => "YouTube Video".data ++ replaceYoutubeAux fuel rest
    | none => c :: replaceYoutubeAux fuel cs

/-- Global replacement of YouTube watch URLs by the text `YouTube Video`,
embedding the second replace of `formatTitle`. -/
def replaceYoutubeUrls (l : List Char) : List Char := replaceYoutubeAux l.length l

/-- Match a generic URL at the head: a scheme, an optional `www.`, a
nonempty run of non-slash characters (the domain), then an optional slash
path of non-whitespace characters.  Returns the domain and the remainder
after the whole match.  The optional `www.` group backtracks: if no domain
follows the `www.`, the group matches empty and `www.` itself is the
domain. -/
def tryUrlDomain (l : List Char) : Option (List Char × List Char) :=
  match stripScheme l with
  | none => none
  | some r1 =>
    let core := fun (r : List Char) =>
      let dom := r.takeWhile (fun c => c != '/')
      if dom.isEmpty then none else
        match r.drop dom.length with
        | '/' :: tail => some (dom, tail.dropWhile (fun c => !jsWhitespace c))
        | other => some (dom, other)
    match stripLit "www.".data r1 with
    | some r2 =>
      match core r2 with
      | some x => some x
      | none => core r1
    | none => core r1

/-- Scan step of the global URL-to-domain replacement, fuelled like
`replaceYoutubeAux`. -/
def replaceUrlsAux : Nat → List Char → List Char
  | 0, l => l
  | _ + 1, [] => []
  | fuel + 1, c :: cs =>
    match tryUrlDomain (c :: cs) with
    | some (dom, rest) => dom ++ replaceUrlsAux fuel rest
    | none => c :: replaceUrlsAux fuel cs

/-- Global replacement of remaining URLs by just their domain, embedding
the third replace of `formatTitle`. -/
def replaceOtherUrls (l : List Char) : List Char := replaceUrlsAux l.length l

/-- Uppercase the first character, embedding the capitalization step of
`formatTitle`. -/
def capitalizeFirst : List Char → List Char
  | [] => []
  | c :: cs => c.toUpper :: cs

/-- Remove a trailing run of three or more dots, embedding the trailing
ellipsis cleanup of `formatTitle`. -/
def stripTrailingEllipsis (l : List Char) : List Char :=
  if 3 ≤ (l.reverse.takeWhile (fun c => c == '.')).length then
    (l.reverse.dropWhile (fun c => c == '.')).reverse
  else l

/-- The cleanup pipeline of `formatTitle` before the final length check:
strip the `Chat:` marker, replace YouTube URLs, replace other URLs by their
domain, capitalize, and strip a trailing ellipsis. -/
def cleanupTitle (title : List Char) : List Char :=
  stripTrailingEllipsis
    (capitalizeFirst (replaceOtherUrls (replaceYoutubeUrls (stripChatTag title))))

/-- Episode title formatting, `formatTitle` of ConversationHistory.tsx:
cleanup, then truncation of a result longer than 40 characters to its first
37 characters followed by three dots. -/
def formatTitle (title : List Char) : List Char :=
  let formatted := cleanupTitle title
  if formatted.length > 40 then formatted.take 37 ++ "...".data else formatted

/-- Payload of an episode event as read by the frontend. -/
structure EventData where
  content : String
  deriving Repr, DecidableEq

/-- An episode event as consumed by ConversationHistory.tsx. -/
structure JsEvent where
  timestamp : String
  event_type : String
  data : EventData
  deriving Repr, DecidableEq

/-- Message role in the conversation view. -/
inductive Role where
  | user
  | assistant
  deriving Repr, DecidableEq

/-- A conversation entry produced by `fetchEpisodeConversations`. -/
structure ConversationEvent where
  role : Role
  content : String
  timestamp : String
  deriving Repr, DecidableEq

/-- Extraction of conversation entries from an episode's events, embedding
the forEach of `fetchEpisodeConversations`: keep `user_message` events as
user entries and `assistant_response` events as assistant entries, in
order, skipping every other event type. -/
def extractConversations : List JsEvent → List ConversationEvent
  | [] => []
  | e :: es =>
    if e.event_type = "user_message" then
      { role := Role.user, content := e.data.content, timestamp := e.timestamp }
        :: extractConversations es
    else if e.event_type = "assistant_response" then
      { role := Role.assistant, content := e.data.content, timestamp := e.timestamp }
        :: extractConversations es
    else extractConversations es

/-- An event is shown in the conversation view iff it is a user message or
an assistant response. -/
def isConversational (e : JsEvent) : Bool :=
  e.event_type == "user_message" || e.event_type == "assistant_response"

/-- The conversation entry corresponding to a conversational event. -/
def toConversation (e : JsEvent) : ConversationEvent :=
  { role := if e.event_type = "user_message" then Role.user else Role.assistant,
    content := e.data.content, timestamp := e.timestamp }

/-- C9: for every input title, `formatTitle` returns at most 40 characters,
and whenever the cleaned-up title exceeds 40 characters the result is its
first 37 characters followed by three dots. -/
theorem formatTitle_truncates_to_40 (title : List Char) :
    (formatTitle title).length ≤ 40 ∧
    ((cleanupTitle title).length > 40 →
      formatTitle title = (cleanupTitle title).take 37 ++ "...".data) := by
  unfold formatTitle
  by_cases h : (cleanupTitle title).length > 40
  · refine ⟨?_, fun _ => by simp [h]⟩
    simp only [h, if_true, List.length_append, List.length_take, List.length_cons,
      List.length_nil]
    omega
  · refine ⟨?_, fun hc => absurd hc h⟩
    simp only [h, if_false]
    omega

/-- C9 witness: a concrete 49-character title is cleaned up unchanged (no
marker, no URL, already capitalized) and truncated to 37 characters plus an
ellipsis. -/
theorem formatTitle_truncates_to_40_witness :
    (cleanupTitle "The quick brown fox jumps over the lazy dog again".data).length > 40 ∧
    formatTitle "The quick brown fox jumps over the lazy dog again".data =
      (cleanupTitle "The quick brown fox jumps over the lazy dog again".data).take 37
        ++ "...".data :=
  ⟨by decide,
   (formatTitle_truncates_to_40 "The quick brown fox jumps over the lazy dog again".data).2
     (by decide)⟩

/-- C10: `fetchEpisodeConversations` produces exactly the subsequence of
conversational events (user messages and assistant responses) in original
order, each mapped to its role, content and timestamp. -/
theorem extractConversations_spec (events : List JsEvent) :
    extractConversations events = (events.filter isConversational).map toConversation := by
  induction events with
  | nil => rfl
  | cons e es ih =>
    by_cases hu : e.event_type = "user_message"
    · simp [extractConversations, isConversational, toConversation, hu, List.filter, ih]
    · by_cases ha : e.event_type = "assistant_response"
      · simp [extractConversations, isConversational, toConversation, hu, ha, List.filter, ih]
      · have hu' : (e.event_type == "user_message") = false := by simp [hu]
        have ha' : (e.event_type == "assistant_response") = false := by simp [ha]
        simp [extractConversations, isConversational, hu, ha, hu', ha', List.filter, ih]

/-! ## Short-Term Buffer -/

/-- Modelled from the spec: the per-session bounded recency buffer of
recent interaction memories, items kept oldest first. -/
structure ShortTermBuffer (α : Type) where
  capacity : Nat
  items : List α
  deriving Repr, DecidableEq

/-- Modelled from the spec: a fresh empty buffer of the given capacity. -/
def ShortTermBuffer.empty (α : Type) (n : Nat) : ShortTermBuffer α :=
  { capacity := n, items := [] }

/-- Modelled from the spec: `add(item)` appends; if size exceeds capacity,
evicts the oldest item and returns it, else returns none. -/
def ShortTermBuffer.add {α : Type} (b : ShortTermBuffer α) (x : α) :
    ShortTermBuffer α × Option α :=
  let grown := b.items ++ [x]
  if b.capacity < grown.length then
    ({ capacity := b.capacity, items := grown.tail }, grown.head?)
  else
    ({ capacity := b.capacity, items := grown }, none)

/-- Run a sequence of `add` calls, collecting the evicted items in order. -/
def ShortTermBuffer.addAll {α : Type} (b : ShortTermBuffer α) :
    List α → ShortTermBuffer α × List α
  | [] => (b, [])
  | x :: xs =>
    let step := b.add x
    let rest := step.1.addAll xs
    (rest.1, step.2.toList ++ rest.2)

/-- The last `n` elements of a list. -/
def lastN {α : Type} (n : Nat) (l : List α) : List α := l.drop (l.length - n)

theorem lastN_length {α : Type} (n : Nat) (l : List α) :
    (lastN n l).length = min n l.length := by
  simp [lastN, List.length_drop]
  omega

theorem lastN_of_le {α : Type} {n : Nat} {l : List α} (h : l.length ≤ n) :
    lastN n l = l := by
  simp [lastN, Nat.sub_eq_zero_of_le h]

theorem lastN_cons {α : Type} {n : Nat} (a : α) {l : List α} (h : n ≤ l.length) :
    lastN n (a :: l) = lastN n l := by
  unfold lastN
  have : (a :: l).length - n = (l.length - n) + 1 := by
    simp [List.length_cons]; omega
  rw [this, List.drop_succ_cons]

theorem addAll_general {α : Type} (xs : List α) (b : ShortTermBuffer α)
    (hlen : b.items.length ≤ b.capacity) :
    (b.addAll xs).1.capacity = b.capacity ∧
    (b.addAll xs).1.items = lastN b.capacity (b.items ++ xs) ∧
    (b.addAll xs).2 = (b.items ++ xs).take (b.items.length + xs.length - b.capacity) := by
  induction xs generalizing b with
  | nil =>
    refine ⟨rfl, ?_, ?_⟩
    · simp [ShortTermBuffer.addAll, lastN_of_le hlen]
    · simp [ShortTermBuffer.addAll, Nat.sub_eq_zero_of_le hlen]
  | cons x xs ih =>
    have hlen1 : (b.items ++ [x]).length = b.items.length + 1 := by simp
    by_cases hfull : b.capacity < (b.items ++ [x]).length
    · -- eviction case: the buffer was exactly full
      have hcap : b.items.length = b.capacity := by omega
      obtain ⟨h0, t0, hht⟩ : ∃ h0 t0, b.items ++ [x] = h0 :: t0 := by
        cases hb : b.items ++ [x] with
        | nil => exact absurd hb (by simp)
        | cons h0 t0 => exact ⟨h0, t0, rfl⟩
      have ht0len : t0.length = b.capacity := by
        have hl := congrArg List.length hht
        simp only [List.length_cons] at hl
        omega
      have hstep : b.add x =
          ({ capacity := b.capacity, items := t0 }, some h0) := by
        simp [ShortTermBuffer.add, hht, ht0len]
      have hb1 : ({ capacity := b.capacity, items := t0 } :
          ShortTermBuffer α).items.length ≤
          ({ capacity := b.capacity, items := t0 } : ShortTermBuffer α).capacity := by
        simp [ht0len]
      obtain ⟨ih1, ih2, ih3⟩ := ih { capacity := b.capacity, items := t0 } hb1
      have happ : b.items ++ x :: xs = h0 :: (t0 ++ xs) := by
        have : b.items ++ x :: xs = (b.items ++ [x]) ++ xs := by simp
        rw [this, hht]; rfl
      refine ⟨?_, ?_, ?_⟩
      · simp [ShortTermBuffer.addAll, hstep, ih1]
      · simp only [ShortTermBuffer.addAll, hstep]
        rw [ih2, happ]
        have : lastN b.capacity (h0 :: (t0 ++ xs)) = lastN b.capacity (t0 ++ xs) := by
          refine lastN_cons h0 ?_
          simp [List.length_append]; omega
        simp [this]
      · simp only [ShortTermBuffer.addAll, hstep]
        rw [ih3, happ]
        have hidx : t0.length + xs.length - b.capacity = xs.length := by omega
        have hidx₂ : b.items.length + (xs.length + 1) - b.capacity = xs.length + 1 := by
          omega
        simp [hidx, hidx₂, List.take_succ_cons]
    · -- no eviction: there was room for the new item
      have hroom : b.items.length + 1 ≤ b.capacity := by omega
      have hstep : b.add x =
          ({ capacity := b.capacity, items := b.items ++ [x] }, none) := by
        simp [ShortTermBuffer.add, hfull]
        omega
      have hb1 : ({ capacity := b.capacity, items := b.items ++ [x] } :
          ShortTermBuffer α).items.length ≤
          ({ capacity := b.capacity, items := b.items ++ [x] } :
            ShortTermBuffer α).capacity := by
        simp [List.length_append]; omega
      obtain ⟨ih1, ih2, ih3⟩ := ih { capacity := b.capacity, items := b.items ++ [x] } hb1
      have happ : (b.items ++ [x]) ++ xs = b.items ++ x :: xs := by simp
      refine ⟨?_, ?_, ?_⟩
      · simp [ShortTermBuffer.addAll, hstep, ih1]
      · simp only [ShortTermBuffer.addAll, hstep]
        rw [ih2, happ]
      · simp only [ShortTermBuffer.addAll, hstep, Option.toList, List.nil_append]
        rw [ih3]
        dsimp only
        rw [happ]
        congr 1
        simp only [List.length_append, List.length_cons, List.length_nil]
        omega

/-- C1: from an empty buffer of capacity N, any sequence of adds leaves
exactly the N most recently added items (at most N of them), the evicted
outputs are the oldest items in order (none while the buffer has room), and
the concrete capacity-3 scenario evicts A leaving [B, C, D]. -/
theorem shortTermBuffer_fifo_law (N : Nat) (xs : List String) :
    ((ShortTermBuffer.empty String N).addAll xs).1.items = lastN N xs ∧
    ((ShortTermBuffer.empty String N).addAll xs).1.items.length ≤ N ∧
    ((ShortTermBuffer.empty String N).addAll xs).2 = xs.take (xs.length - N) ∧
    (ShortTermBuffer.empty String 3).addAll ["A", "B", "C", "D"] =
      ({ capacity := 3, items := ["B", "C", "D"] }, ["A"]) := by
  obtain ⟨h1, h2, h3⟩ := addAll_general xs (ShortTermBuffer.empty String N)
    (by simp [ShortTermBuffer.empty])
  refine ⟨?_, ?_, ?_, by rfl⟩
  · simpa [ShortTermBuffer.empty] using h2
  · rw [h2]
    simp [ShortTermBuffer.empty, lastN_length]
  · simpa [ShortTermBuffer.empty] using h3

/-! ## Episodic Recorder -/

/-- Modelled from the spec: the error taxonomy of the memory subsystem. -/
inductive MemError where
  | NotFound
  | DimensionMismatch
  | DegradedSearch
  | Conflict
  | BackendTimeout
  deriving Repr, DecidableEq

/-- Modelled from the spec: episode lifecycle states after creation. -/
inductive EpisodeStatus where
  | ACTIVE
  | CLOSED
  deriving Repr, DecidableEq

/-- Modelled from the spec: a recorded episode event. -/
structure Event where
  timestamp : Nat
  event_type : String
  actor : String
  action : String
  data : String
  impact_score : ℚ
  deriving Repr, DecidableEq

/-- Modelled from the spec: the metrics computed when an episode closes. -/
structure SuccessMetrics where
  duration : Nat
  message_count : Nat
  mean_impact : ℚ
  deriving Repr, DecidableEq

/-- Modelled from the spec: an Episode record; `etype` stands for the
spec's `type` field. -/
structure Episode where
  id : String
  etype : String
  start_time : Nat
  end_time : Option Nat
  participants : List String
  events : List Event
  outcome : Option String
  memories_created : List String
  last_event_time : Nat
  status : EpisodeStatus
  success_metrics : Option SuccessMetrics
  deriving Repr, DecidableEq

/-- Modelled from the spec: the per-session episode recorder, holding the
episodes keyed by id and the configured idle timeout. -/
structure EpisodicRecorder where
  episodes : List (String × Episode)
  idle_timeout : Nat
  deriving Repr, DecidableEq

/-- Look up an episode by id. -/
def lookupEpisode (r : EpisodicRecorder) (eid : String) : Option Episode :=
  (r.episodes.find? (fun p => p.1 == eid)).map Prod.snd

/-- Replace the episode stored at the given id. -/
def updateEpisode (r : EpisodicRecorder) (eid : String) (e : Episode) : EpisodicRecorder :=
  { r with episodes := r.episodes.map (fun p => if p.1 == eid then (p.1, e) else p) }

/-- Modelled from the spec: `append_event` fails with NotFound if the
episode is missing or already CLOSED; otherwise it appends the event and
refreshes the idle timer to the event's timestamp. -/
def append_event (r : EpisodicRecorder) (eid : String) (ev : Event) :
    Except MemError EpisodicRecorder :=
  match lookupEpisode r eid with
  | none => Except.error MemError.NotFound
  | some e =>
    match e.status with
    | EpisodeStatus.CLOSED => Except.error MemError.NotFound
    | EpisodeStatus.ACTIVE =>
      Except.ok (updateEpisode r eid
        { e with events := e.events ++ [ev], last_event_time := ev.timestamp })

/-- Modelled from the spec: close-time metrics — duration, message counts
and mean impact score. -/
def computeMetrics (now : Nat) (e : Episode) : SuccessMetrics :=
  { duration := now - e.start_time,
    message_count := (e.events.filter (fun ev =>
      ev.event_type == "user_message" || ev.event_type == "assistant_response")).length,
    mean_impact :=
      if e.events.isEmpty then 0
      else (e.events.map (fun ev => ev.impact_score)).sum / (e.events.length : ℚ) }

/-- Modelled from the spec: `close_episode` computes metrics and
transitions an ACTIVE episode to CLOSED; closing an already-CLOSED episode
returns the existing result unchanged, never an error. -/
def close_episode (r : EpisodicRecorder) (eid : String) (outcome : String) (now : Nat) :
    Except MemError (Episode × EpisodicRecorder) :=
  match lookupEpisode r eid with
  | none => Except.error MemError.NotFound
  | some e =>
    match e.status with
    | EpisodeStatus.CLOSED => Except.ok (e, r)
    | EpisodeStatus.ACTIVE =>
      let closed := { e with
                      status := EpisodeStatus.CLOSED,
                      end_time := some now,
                      outcome := some outcome,
                      success_metrics := some (computeMetrics now e) }
      Except.ok (closed, updateEpisode r eid closed)

/-- Modelled from the spec: the auto-close check closes an ACTIVE episode
whose time since its last event has reached the idle timeout, tagging the
outcome as auto_closed. -/
def checkAutoClose (idle now : Nat) (e : Episode) : Episode :=
  if e.status = EpisodeStatus.ACTIVE ∧ e.last_event_time + idle ≤ now then
    { e with
      status := EpisodeStatus.CLOSED,
      outcome := some "auto_closed",
      end_time := some now }
  else e

/-- Modelled from the spec: the periodic sweep applies the auto-close check
to every episode. -/
def sweep (r : EpisodicRecorder) (now : Nat) : EpisodicRecorder :=
  { r with episodes := r.episodes.map (fun p => (p.1, checkAutoClose r.idle_timeout now p.2)) }

theorem find?_map_update (l : List (String × Episode)) (eid : String) (x : Episode)
    (h : (l.find? (fun p => p.1 == eid)).isSome = true) :
    (l.map (fun p => if p.1 == eid then (p.1, x) else p)).find? (fun p => p.1 == eid)
      = some (eid, x) := by
  induction l with
  | nil => simp at h
  | cons p l ih =>
    by_cases hp : p.1 = eid
    · simp [hp]
    · have hneg : ¬((fun (q : String × Episode) => q.1 == eid) p = true) := by simp [hp]
      rw [List.map_cons, show (if (p.1 == eid) = true then (p.1, x) else p) = p
        by simp [hp]]
      rw [List.find?_cons_of_neg (p := fun q => q.1 == eid) (a := p) _ hneg]
      rw [List.find?_cons_of_neg (p := fun q => q.1 == eid) (a := p) _ hneg] at h
      exact ih h

theorem find?_map_keyed (l : List (String × Episode)) (eid : String) (f : Episode → Episode) :
    (l.map (fun p => (p.1, f p.2))).find? (fun p => p.1 == eid)
      = (l.find? (fun p => p.1 == eid)).map (fun p => (p.1, f p.2)) := by
  induction l with
  | nil => rfl
  | cons p l ih =>
    by_cases hp : p.1 = eid
    · simp [hp]
    · have hneg : ¬((fun (q : String × Episode) => q.1 == eid) p = true) := by simp [hp]
      have hneg₂ : ¬((fun (q : String × Episode) => q.1 == eid) (p.1, f p.2) = true) := by
        simp [hp]
      rw [List.map_cons]
      rw [List.find?_cons_of_neg (p := fun q => q.1 == eid) (a := (p.1, f p.2)) _ hneg₂]
      rw [List.find?_cons_of_neg (p := fun q => q.1 == eid) (a := p) _ hneg]
      exact ih

theorem lookupEpisode_updateEpisode (r : EpisodicRecorder) (eid : String) (x e : Episode)
    (h : lookupEpisode r eid = some e) :
    lookupEpisode (updateEpisode r eid x) eid = some x := by
  unfold lookupEpisode at h ⊢
  unfold updateEpisode
  have hs : (r.episodes.find? (fun p => p.1 == eid)).isSome = true := by
    cases hf : r.episodes.find? (fun p => p.1 == eid) with
    | none => rw [hf] at h; simp at h
    | some v => simp
  rw [find?_map_update r.episodes eid x hs]
  rfl

theorem lookupEpisode_sweep (r : EpisodicRecorder) (now : Nat) (eid : String) :
    lookupEpisode (sweep r now) eid
      = (lookupEpisode r eid).map (checkAutoClose r.idle_timeout now) := by
  unfold lookupEpisode sweep
  rw [find?_map_keyed]
  cases r.episodes.find? (fun p => p.1 == eid) <;> rfl

/-- C2: an auto-close check on an ACTIVE episode with last event at time T
closes it with outcome auto_closed when run at or after T plus the idle
timeout, leaves it unchanged before that, concretely closes at T + 7200
seconds and not at T + 7199, and the periodic sweep applies exactly this
check to every stored episode. -/
theorem episode_autoClose_correct (idle now : Nat) (e : Episode)
    (h : e.status = EpisodeStatus.ACTIVE) :
    (e.last_event_time + idle ≤ now →
      (checkAutoClose idle now e).status = EpisodeStatus.CLOSED ∧
      (checkAutoClose idle now e).outcome = some "auto_closed") ∧
    (now < e.last_event_time + idle → checkAutoClose idle now e = e) ∧
    (checkAutoClose 7200 (e.last_event_time + 7200) e).status = EpisodeStatus.CLOSED ∧
    (checkAutoClose 7200 (e.last_event_time + 7200) e).outcome = some "auto_closed" ∧
    checkAutoClose 7200 (e.last_event_time + 7199) e = e ∧
    (∀ (r : EpisodicRecorder) (eid : String), lookupEpisode r eid = some e →
      lookupEpisode (sweep r now) eid = some (checkAutoClose r.idle_timeout now e)) := by
  refine ⟨?_, ?_, ?_, ?_, ?_, ?_⟩
  · intro hle
    constructor <;> simp [checkAutoClose, h, hle]
  · intro hlt
    simp [checkAutoClose, h, Nat.not_le.mpr hlt]
  · simp [checkAutoClose, h]
  · simp [checkAutoClose, h]
  · simp [checkAutoClose, h]
  · intro r eid hr
    rw [lookupEpisode_sweep, hr]
    rfl

/-- Sample event used by the witnesses. -/
def sampleEvent : Event :=
  { timestamp := 1500, event_type := "user_message", actor := "user",
    action := "sent_message", data := "hi", impact_score := 1 }

/-- Sample ACTIVE episode used by the witnesses. -/
def sampleActiveEpisode : Episode :=
  { id := "ep1", etype := "conversation", start_time := 1000, end_time := none,
    participants := ["user", "assistant"], events := [], outcome := none,
    memories_created := [], last_event_time := 1000,
    status := EpisodeStatus.ACTIVE, success_metrics := none }

/-- Sample CLOSED episode used by the witnesses. -/
def sampleClosedEpisode : Episode :=
  { id := "ep0", etype := "conversation", start_time := 100, end_time := some 200,
    participants := ["user"], events := [], outcome := some "completed",
    memories_created := [], last_event_time := 200,
    status := EpisodeStatus.CLOSED, success_metrics := none }

/-- Sample recorder holding one ACTIVE and one CLOSED episode. -/
def sampleRecorder : EpisodicRecorder :=
  { episodes := [("ep1", sampleActiveEpisode), ("ep0", sampleClosedEpisode)],
    idle_timeout := 7200 }

/-- C2 witness: the concrete ACTIVE episode with last event at time 1000 is
closed as auto_closed by a check at 8200 = 1000 + 7200 and unchanged by a
check at 8199. -/
theorem episode_autoClose_correct_witness :
    ((checkAutoClose 7200 (sampleActiveEpisode.last_event_time + 7200)
        sampleActiveEpisode).status = EpisodeStatus.CLOSED ∧
      (checkAutoClose 7200 (sampleActiveEpisode.last_event_time + 7200)
        sampleActiveEpisode).outcome = some "auto_closed") ∧
    checkAutoClose 7200 (sampleActiveEpisode.last_event_time + 7199)
      sampleActiveEpisode = sampleActiveEpisode :=
  ⟨⟨(episode_autoClose_correct 7200 0 sampleActiveEpisode (by rfl)).2.2.1,
    (episode_autoClose_correct 7200 0 sampleActiveEpisode (by rfl)).2.2.2.1⟩,
   (episode_autoClose_correct 7200 0 sampleActiveEpisode (by rfl)).2.2.2.2.1⟩

/-- C5: `append_event` fails with NotFound on an unknown episode id and on
a CLOSED episode; on an ACTIVE episode it succeeds, appending the event to
the episode's event list and refreshing the idle timer to the event's
timestamp. -/
theorem appendEvent_spec (r : EpisodicRecorder) (eid : String) (ev : Event) :
    (lookupEpisode r eid = none → append_event r eid ev = Except.error MemError.NotFound) ∧
    (∀ e, lookupEpisode r eid = some e → e.status = EpisodeStatus.CLOSED →
      append_event r eid ev = Except.error MemError.NotFound) ∧
    (∀ e, lookupEpisode r eid = some e → e.status = EpisodeStatus.ACTIVE →
      ∃ r', append_event r eid ev = Except.ok r' ∧
        lookupEpisode r' eid =
          some { e with events := e.events ++ [ev], last_event_time := ev.timestamp }) := by
  refine ⟨?_, ?_, ?_⟩
  · intro h
    simp [append_event, h]
  · intro e he hc
    simp [append_event, he, hc]
  · intro e he ha
    refine ⟨updateEpisode r eid
      { e with events := e.events ++ [ev], last_event_time := ev.timestamp }, ?_, ?_⟩
    · simp [append_event, he, ha]
    · exact lookupEpisode_updateEpisode r eid _ e he

/-- C5 witness: on the sample recorder, appending to an unknown id fails,
appending to the CLOSED episode fails, and appending to the ACTIVE episode
records the event and its timestamp. -/
theorem appendEvent_spec_witness :
    append_event sampleRecorder "nope" sampleEvent = Except.error MemError.NotFound ∧
    append_event sampleRecorder "ep0" sampleEvent = Except.error MemError.NotFound ∧
    (∃ r', append_event sampleRecorder "ep1" sampleEvent = Except.ok r' ∧
      lookupEpisode r' "ep1" = some { sampleActiveEpisode with
        events := sampleActiveEpisode.events ++ [sampleEvent],
        last_event_time := sampleEvent.timestamp }) :=
  ⟨(appendEvent_spec sampleRecorder "nope" sampleEvent).1 (by rfl),
   (appendEvent_spec sampleRecorder "ep0" sampleEvent).2.1 sampleClosedEpisode (by rfl) (by rfl),
   (appendEvent_spec sampleRecorder "ep1" sampleEvent).2.2 sampleActiveEpisode (by rfl) (by rfl)⟩

/-- C6: `close_episode` is idempotent — once a close has returned a result,
closing the same episode again (with any outcome and at any time) returns
the identical result and never an error. -/
theorem closeEpisode_idempotent (r : EpisodicRecorder) (eid : String)
    (out out' : String) (now now' : Nat) (e1 : Episode) (r1 : EpisodicRecorder)
    (h : close_episode r eid out now = Except.ok (e1, r1)) :
    close_episode r1 eid out' now' = Except.ok (e1, r1) := by
  cases hf : lookupEpisode r eid with
  | none => simp [close_episode, hf] at h
  | some e =>
    cases hs : e.status with
    | CLOSED =>
      simp only [close_episode, hf, hs] at h
      obtain ⟨he1, hr1⟩ := by simpa using h
      subst he1
      subst hr1
      simp [close_episode, hf, hs]
    | ACTIVE =>
      simp only [close_episode, hf, hs] at h
      obtain ⟨he1, hr1⟩ := by simpa using h
      subst he1
      subst hr1
      have hl := lookupEpisode_updateEpisode r eid
        { e with
          status := EpisodeStatus.CLOSED,
          end_time := some now,
          outcome := some out,
          success_metrics := some (computeMetrics now e) } e hf
      simp [close_episode, hl]

/-- Concrete episode produced by closing the sample ACTIVE episode at time
5000 with outcome done. -/
def sampleClosedResult : Episode :=
  { sampleActiveEpisode with
    status := EpisodeStatus.CLOSED,
    end_time := some 5000,
    outcome := some "done",
    success_metrics := some { duration := 4000, message_count := 0, mean_impact := 0 } }

/-- Sample recorder after the first close of the ACTIVE episode. -/
def sampleRecorderAfterClose : EpisodicRecorder :=
  updateEpisode sampleRecorder "ep1" sampleClosedResult

/-- C6 witness: closing the sample ACTIVE episode and then closing it again
with a different outcome and time returns the identical result. -/
theorem closeEpisode_idempotent_witness :
    close_episode sampleRecorder "ep1" "done" 5000 =
      Except.ok (sampleClosedResult, sampleRecorderAfterClose) ∧
    close_episode sampleRecorderAfterClose "ep1" "later" 9000 =
      Except.ok (sampleClosedResult, sampleRecorderAfterClose) := by
  have h1 : close_episode sampleRecorder "ep1" "done" 5000 =
      Except.ok (sampleClosedResult, sampleRecorderAfterClose) := by rfl
  exact ⟨h1, closeEpisode_idempotent sampleRecorder "ep1" "done" "later" 5000 9000
    sampleClosedResult sampleRecorderAfterClose h1⟩

/-! ## Long-Term Store -/

/-- Modelled from the spec: a durable memory record. -/
structure MemoryItem where
  id : String
  content : String
  embedding : List ℚ
  created_at : Nat
  last_accessed_at : Nat
  access_count : Nat
  tags : List String
  emotion_tag : Option String
  deriving Repr, DecidableEq

/-- Modelled from the spec: the durable Long-Term Store with its configured
embedding dimension. -/
structure LongTermStore where
  entries : List MemoryItem
  dimension : Nat
  deriving Repr, DecidableEq

/-- Whether the store already holds an entry with the given id. -/
def containsId (s : LongTermStore) (i : String) : Bool :=
  s.entries.any (fun m => m.id == i)

/-- Number of entries with the given id. -/
def countId (s : LongTermStore) (i : String) : Nat :=
  (s.entries.filter (fun m => m.id == i)).length

/-- Modelled from the spec: `consolidate(candidate)` is an idempotent
upsert — a candidate already present by id only has its metadata
(last-accessed time) refreshed, otherwise it is inserted. -/
def consolidate (s : LongTermStore) (now : Nat) (c : MemoryItem) : LongTermStore :=
  if s.entries.any (fun m => m.id == c.id) then
    { s with entries := s.entries.map (fun m =>
        if m.id == c.id then { m with last_accessed_at := now } else m) }
  else
    { s with entries := s.entries ++ [c] }

/-- Every field of a memory item except the refreshable metadata. -/
def stripMeta (m : MemoryItem) :
    String × String × List ℚ × Nat × Nat × List String × Option String :=
  (m.id, m.content, m.embedding, m.created_at, m.access_count, m.tags, m.emotion_tag)

theorem filter_length_map_pres {β : Type} (l : List β) (p : β → Bool)
    (f : β → β) (hf : ∀ m, p (f m) = p m) :
    ((l.map f).filter p).length = (l.filter p).length := by
  induction l with
  | nil => rfl
  | cons m l ih =>
    rw [List.map_cons, List.filter_cons, List.filter_cons, hf]
    cases p m <;> simp [ih]

theorem any_map_pres {β : Type} (l : List β) (p : β → Bool)
    (f : β → β) (hf : ∀ m, p (f m) = p m) :
    (l.map f).any p = l.any p := by
  induction l with
  | nil => rfl
  | cons m l ih =>
    rw [List.map_cons, List.any_cons, List.any_cons, hf, ih]

theorem map_map_pres {α β : Type} (l : List β) (g : β → α)
    (f : β → β) (hf : ∀ m, g (f m) = g m) :
    (l.map f).map g = l.map g := by
  induction l with
  | nil => rfl
  | cons m l ih =>
    rw [List.map_cons, List.map_cons, List.map_cons, hf, ih]

theorem refresh_pres_id (now : Nat) (i : String) (m : MemoryItem) :
    ((if m.id == i then { m with last_accessed_at := now } else m).id == i)
      = (m.id == i) := by
  by_cases hm : m.id = i <;> simp [hm]

theorem filter_id_refresh (l : List MemoryItem) (now : Nat) (i : String) :
    ((l.map (fun m => if m.id == i then { m with last_accessed_at := now } else m)).filter
      (fun m => m.id == i)).length = (l.filter (fun m => m.id == i)).length :=
  filter_length_map_pres l _ _ (refresh_pres_id now i)

theorem any_id_refresh (l : List MemoryItem) (now : Nat) (i : String) :
    (l.map (fun m => if m.id == i then { m with last_accessed_at := now } else m)).any
      (fun m => m.id == i) = l.any (fun m => m.id == i) :=
  any_map_pres l _ _ (refresh_pres_id now i)

theorem stripMeta_refresh (l : List MemoryItem) (now : Nat) (i : String) :
    (l.map (fun m => if m.id == i then { m with last_accessed_at := now } else m)).map
      stripMeta = l.map stripMeta :=
  map_map_pres l stripMeta _ (fun m => by by_cases hm : m.id = i <;> simp [hm, stripMeta])

theorem containsId_consolidate (s : LongTermStore) (now : Nat) (c : MemoryItem) :
    containsId (consolidate s now c) c.id = true := by
  by_cases hc : s.entries.any (fun m => m.id == c.id) = true
  · simp only [containsId, consolidate, hc, if_true]
    rw [any_id_refresh]
    exact hc
  · simp only [containsId, consolidate, hc, if_false]
    simp

theorem count_eq_zero_of_not_contains (s : LongTermStore) (i : String)
    (h : ¬containsId s i = true) : countId s i = 0 := by
  unfold containsId at h
  unfold countId
  have : s.entries.filter (fun m => m.id == i) = [] := by
    rw [List.filter_eq_nil_iff]
    intro a ha
    intro hpa
    exact h (List.any_eq_true.mpr ⟨a, ha, hpa⟩)
  rw [this]
  rfl

theorem count_pos_of_contains (s : LongTermStore) (i : String)
    (h : containsId s i = true) : 0 < countId s i := by
  unfold containsId at h
  obtain ⟨a, ha, hpa⟩ := List.any_eq_true.mp h
  exact List.length_pos_of_mem (List.mem_filter.mpr ⟨ha, hpa⟩)

/-- C3: consolidate is idempotent — consolidating the same candidate twice
yields exactly one entry with the candidate's id, consolidating a candidate
already present by id changes nothing beyond the metadata refresh, and the
second consolidation never changes anything beyond a metadata refresh. -/
theorem consolidate_idempotent (s : LongTermStore) (now₁ now₂ : Nat) (c : MemoryItem)
    (h : countId s c.id ≤ 1) :
    countId (consolidate (consolidate s now₁ c) now₂ c) c.id = 1 ∧
    (containsId s c.id = true →
      (consolidate s now₁ c).entries.map stripMeta = s.entries.map stripMeta) ∧
    (consolidate (consolidate s now₁ c) now₂ c).entries.map stripMeta
      = (consolidate s now₁ c).entries.map stripMeta := by
  have hc₁ := containsId_consolidate s now₁ c
  have hc₁' : ((consolidate s now₁ c).entries.any fun m => m.id == c.id) = true := by
    simpa [containsId] using hc₁
  refine ⟨?_, ?_, ?_⟩
  · have hcount₁ : countId (consolidate s now₁ c) c.id = 1 := by
      by_cases hc : (s.entries.any fun m => m.id == c.id) = true
      · have hpos := count_pos_of_contains s c.id hc
        unfold countId consolidate
        rw [if_pos hc]
        dsimp only
        rw [filter_id_refresh]
        unfold countId at hpos h
        omega
      · have hz := count_eq_zero_of_not_contains s c.id (by simpa [containsId] using hc)
        unfold countId at hz
        unfold countId consolidate
        rw [if_neg hc]
        dsimp only
        rw [List.filter_append, List.length_append, hz]
        simp
    unfold countId at hcount₁
    generalize hT : consolidate s now₁ c = T at hcount₁ hc₁'
    unfold countId consolidate
    rw [if_pos hc₁']
    dsimp only
    rw [filter_id_refresh]
    exact hcount₁
  · intro hc
    unfold containsId at hc
    unfold consolidate
    rw [if_pos hc]
    exact stripMeta_refresh s.entries now₁ c.id
  · generalize hT : consolidate s now₁ c = T at hc₁'
    unfold consolidate
    rw [if_pos hc₁']
    exact stripMeta_refresh T.entries now₂ c.id

/-- Sample memory item for the witnesses. -/
def sampleItem : MemoryItem :=
  { id := "m1", content := "hello", embedding := [1, 0], created_at := 10,
    last_accessed_at := 20, access_count := 3, tags := ["demo"], emotion_tag := none }

/-- Second sample memory item for the witnesses. -/
def sampleItem2 : MemoryItem :=
  { id := "m2", content := "world", embedding := [0, 1], created_at := 11,
    last_accessed_at := 25, access_count := 1, tags := [], emotion_tag := some "calm" }

/-- Empty sample long-term store. -/
def sampleStore : LongTermStore := { entries := [], dimension := 2 }

/-- C3 witness: consolidating the sample item twice into the empty store
leaves exactly one entry with its id, and the second consolidation changes
nothing beyond the metadata refresh. -/
theorem consolidate_idempotent_witness :
    countId (consolidate (consolidate sampleStore 30 sampleItem) 40 sampleItem)
      sampleItem.id = 1 ∧
    (consolidate (consolidate sampleStore 30 sampleItem) 40 sampleItem).entries.map
      stripMeta = (consolidate sampleStore 30 sampleItem).entries.map stripMeta :=
  ⟨(consolidate_idempotent sampleStore 30 40 sampleItem (by decide)).1,
   (consolidate_idempotent sampleStore 30 40 sampleItem (by decide)).2.2⟩

/-- Ranking relation of long-term search: strictly greater similarity comes
first; equal similarities are ordered by most-recent last-accessed time. -/
def rankRel (sim : List ℚ → List ℚ → ℚ) (q : List ℚ) (a b : MemoryItem) : Prop :=
  sim q b.embedding < sim q a.embedding ∨
    (sim q a.embedding = sim q b.embedding ∧ b.last_accessed_at ≤ a.last_accessed_at)

instance rankRelDecidable (sim : List ℚ → List ℚ → ℚ) (q : List ℚ) :
    DecidableRel (rankRel sim q) := fun a b => by
  unfold rankRel
  infer_instance

/-- Modelled from the spec: `search(query_embedding, top_k)` ranks the
stored items by descending similarity under the pluggable metric `sim`,
breaking ties by most-recent last-accessed time, and returns the first
`top_k` of them. -/
def search (sim : List ℚ → List ℚ → ℚ) (s : LongTermStore) (q : List ℚ) (k : Nat) :
    List MemoryItem :=
  (s.entries.insertionSort (rankRel sim q)).take k

theorem rankRel_total (sim : List ℚ → List ℚ → ℚ) (q : List ℚ) (a b : MemoryItem) :
    rankRel sim q a b ∨ rankRel sim q b a := by
  rcases lt_trichotomy (sim q a.embedding) (sim q b.embedding) with h | h | h
  · right; left; exact h
  · rcases le_total b.last_accessed_at a.last_accessed_at with hl | hl
    · left; right; exact ⟨h, hl⟩
    · right; right; exact ⟨h.symm, hl⟩
  · left; left; exact h

theorem rankRel_trans (sim : List ℚ → List ℚ → ℚ) (q : List ℚ) (a b c : MemoryItem)
    (hab : rankRel sim q a b) (hbc : rankRel sim q b c) : rankRel sim q a c := by
  rcases hab with hab | ⟨hab, la⟩
  · rcases hbc with hbc | ⟨hbc, lb⟩
    · left; exact lt_trans hbc hab
    · left; exact lt_of_le_of_lt (le_of_eq hbc.symm) hab
  · rcases hbc with hbc | ⟨hbc, lb⟩
    · left; exact lt_of_lt_of_le hbc (le_of_eq hab.symm)
    · right; exact ⟨hab.trans hbc, le_trans lb la⟩

/-- C4: search returns at most `k` results, sorted by descending similarity
with ties broken by most-recent last-accessed time, every result comes from
the store, and when the store holds at most `k` items the result is all of
them (a permutation of the entries), not an error. -/
theorem longTermStore_search_spec (sim : List ℚ → List ℚ → ℚ) (s : LongTermStore)
    (q : List ℚ) (k : Nat) :
    (search sim s q k).length ≤ k ∧
    List.Pairwise (rankRel sim q) (search sim s q k) ∧
    (∀ m ∈ search sim s q k, m ∈ s.entries) ∧
    (s.entries.length ≤ k → (search sim s q k).Perm s.entries) := by
  haveI : IsTotal MemoryItem (rankRel sim q) := ⟨rankRel_total sim q⟩
  haveI : IsTrans MemoryItem (rankRel sim q) := ⟨rankRel_trans sim q⟩
  have hsorted : List.Sorted (rankRel sim q) (s.entries.insertionSort (rankRel sim q)) :=
    List.sorted_insertionSort (rankRel sim q) s.entries
  have hperm : (s.entries.insertionSort (rankRel sim q)).Perm s.entries :=
    List.perm_insertionSort (rankRel sim q) s.entries
  have hlen : (s.entries.insertionSort (rankRel sim q)).length = s.entries.length :=
    List.length_insertionSort (rankRel sim q) s.entries
  refine ⟨?_, ?_, ?_, ?_⟩
  · simp [search, List.length_take]
  · exact List.Pairwise.sublist (List.take_sublist _ _) hsorted
  · intro m hm
    exact hperm.mem_iff.mp (List.mem_of_mem_take hm)
  · intro hk
    have : (s.entries.insertionSort (rankRel sim q)).take k
        = s.entries.insertionSort (rankRel sim q) := by
      apply List.take_of_length_le
      omega
    unfold search
    rw [this]
    exact hperm

/-- Sample two-entry long-term store. -/
def sampleStore2 : LongTermStore := { entries := [sampleItem, sampleItem2], dimension := 2 }

/-- C4 witness: searching the two-entry store with k = 5 under a concrete
metric returns all stored items. -/
theorem longTermStore_search_spec_witness :
    (search (fun _ _ => 0) sampleStore2 [1, 0] 5).length ≤ 5 ∧
    (search (fun _ _ => 0) sampleStore2 [1, 0] 5).Perm sampleStore2.entries :=
  ⟨(longTermStore_search_spec (fun _ _ => 0) sampleStore2 [1, 0] 5).1,
   (longTermStore_search_spec (fun _ _ => 0) sampleStore2 [1, 0] 5).2.2.2 (by decide)⟩

/-! ## Transcript Store -/

/-- Modelled from the spec: a durable transcript and action-plan record. -/
structure TranscriptRecord where
  id : String
  url : String
  title : String
  transcript_text : String
  action_plan : String
  summary : String
  embedding : List ℚ
  created_at : Nat
  deriving Repr, DecidableEq

/-- Modelled from the spec: the transcript store, with a counter for fresh
record ids. -/
structure TranscriptStore where
  records : List TranscriptRecord
  next_id : Nat
  deriving Repr, DecidableEq

/-- Look up the record for a source URL. -/
def get_by_url (s : TranscriptStore) (u : String) : Option TranscriptRecord :=
  s.records.find? (fun t => t.url == u)

/-- Number of records with the given URL. -/
def countUrl (s : TranscriptStore) (u : String) : Nat :=
  (s.records.filter (fun t => t.url == u)).length

/-- Modelled from the spec: `save(url, title, transcript, action_plan)`
upserts by url, recomputing the embedding from title plus transcript; a
re-save overwrites the fields but preserves the record id, a first save
inserts a fresh record and returns its new id. -/
def save (embed : String → List ℚ) (s : TranscriptStore)
    (u title transcript action_plan : String) (now : Nat) : String × TranscriptStore :=
  match get_by_url s u with
  | some r =>
    (r.id, { s with records := s.records.map (fun t =>
        if t.url == u then
          { t with
            title := title,
            transcript_text := transcript,
            action_plan := action_plan,
            embedding := embed (title ++ transcript) }
        else t) })
  | none =>
    let rid := "transcript_" ++ toString s.next_id
    (rid,
      { records := s.records ++
          [{ id := rid, url := u, title := title, transcript_text := transcript,
             action_plan := action_plan, summary := "",
             embedding := embed (title ++ transcript), created_at := now }],
        next_id := s.next_id + 1 })

theorem find?_map_url_upd (l : List TranscriptRecord) (u : String)
    (f : TranscriptRecord → TranscriptRecord) (hf : ∀ t, (f t).url = t.url) :
    (l.map (fun t => if t.url == u then f t else t)).find? (fun t => t.url == u)
      = (l.find? (fun t => t.url == u)).map f := by
  induction l with
  | nil => rfl
  | cons t l ih =>
    by_cases ht : t.url = u
    · rw [List.map_cons, show (if t.url == u then f t else t) = f t by simp [ht]]
      rw [List.find?_cons_of_pos (p := fun r => r.url == u) (a := f t) _ (by simp [hf, ht])]
      rw [List.find?_cons_of_pos (p := fun r => r.url == u) (a := t) _ (by simp [ht])]
      rfl
    · have hneg : ¬((fun (r : TranscriptRecord) => r.url == u) t = true) := by simp [ht]
      have hneg₂ : ¬((fun (r : TranscriptRecord) => r.url == u)
          (if t.url == u then f t else t) = true) := by
        simp [ht]
      rw [List.map_cons]
      rw [List.find?_cons_of_neg (p := fun r => r.url == u)
        (a := if t.url == u then f t else t) _ hneg₂]
      rw [List.find?_cons_of_neg (p := fun r => r.url == u) (a := t) _ hneg]
      exact ih

theorem save_found (embed : String → List ℚ) (s : TranscriptStore)
    (u t tr a : String) (n : Nat) :
    ∃ r, get_by_url (save embed s u t tr a n).2 u = some r ∧
      r.id = (save embed s u t tr a n).1 ∧ r.url = u ∧
      r.title = t ∧ r.transcript_text = tr ∧ r.action_plan = a ∧
      r.embedding = embed (t ++ tr) := by
  cases hf : get_by_url s u with
  | none =>
    refine ⟨{ id := "transcript_" ++ toString s.next_id, url := u, title := t,
              transcript_text := tr, action_plan := a, summary := "",
              embedding := embed (t ++ tr), created_at := n },
      ?_, ?_, rfl, rfl, rfl, rfl, rfl⟩
    · have hff : s.records.find? (fun r => r.url == u) = none := hf
      simp only [save, hf]
      unfold get_by_url
      rw [List.find?_append, hff]
      simp
    · simp only [save, hf]
  | some r₀ =>
    refine ⟨{ r₀ with
      title := t,
      transcript_text := tr,
      action_plan := a,
      embedding := embed (t ++ tr) }, ?_, ?_, ?_, rfl, rfl, rfl, rfl⟩
    · have hff : s.records.find? (fun r => r.url == u) = some r₀ := hf
      simp only [save, hf]
      unfold get_by_url
      rw [find?_map_url_upd s.records u
        (fun r => { r with
                    title := t,
                    transcript_text := tr,
                    action_plan := a,
                    embedding := embed (t ++ tr) }) (fun x => rfl), hff]
      rfl
    · simp only [save, hf]
    · have hff : s.records.find? (fun r => r.url == u) = some r₀ := hf
      have := List.find?_some hff
      simpa using this

theorem countUrl_save (embed : String → List ℚ) (s : TranscriptStore)
    (u t tr a : String) (n : Nat) (h : countUrl s u ≤ 1) :
    countUrl (save embed s u t tr a n).2 u = 1 := by
  cases hf : get_by_url s u with
  | none =>
    have hff : s.records.find? (fun r => r.url == u) = none := hf
    have hz : (s.records.filter (fun t => t.url == u)).length = 0 := by
      have : s.records.filter (fun t => t.url == u) = [] := by
        rw [List.filter_eq_nil_iff]
        exact List.find?_eq_none.mp hff
      rw [this]
      rfl
    simp only [save, hf]
    unfold countUrl
    dsimp only
    rw [List.filter_append, List.length_append, hz]
    simp
  | some r₀ =>
    have hff : s.records.find? (fun r => r.url == u) = some r₀ := hf
    have hpos : 0 < (s.records.filter (fun t => t.url == u)).length := by
      have hmem := List.mem_of_find?_eq_some hff
      have hp := List.find?_some hff
      exact List.length_pos_of_mem (List.mem_filter.mpr ⟨hmem, hp⟩)
    unfold countUrl at h
    simp only [save, hf]
    unfold countUrl
    dsimp only
    rw [filter_length_map_pres]
    · omega
    · intro x
      by_cases hx : x.url = u <;> simp [hx]

/-- C7: saving the same url twice yields one record id — the second call
returns the id created or found by the first, leaves exactly one record for
the url, and that record carries the second call's title, transcript,
action plan and recomputed embedding. -/
theorem transcriptStore_save_upsert (embed : String → List ℚ) (s : TranscriptStore)
    (u t₁ tr₁ a₁ t₂ tr₂ a₂ : String) (n₁ n₂ : Nat) (h : countUrl s u ≤ 1) :
    (save embed (save embed s u t₁ tr₁ a₁ n₁).2 u t₂ tr₂ a₂ n₂).1
      = (save embed s u t₁ tr₁ a₁ n₁).1 ∧
    countUrl (save embed (save embed s u t₁ tr₁ a₁ n₁).2 u t₂ tr₂ a₂ n₂).2 u = 1 ∧
    ∃ r, get_by_url (save embed (save embed s u t₁ tr₁ a₁ n₁).2 u t₂ tr₂ a₂ n₂).2 u
        = some r ∧
      r.id = (save embed s u t₁ tr₁ a₁ n₁).1 ∧
      r.title = t₂ ∧ r.transcript_text = tr₂ ∧ r.action_plan = a₂ ∧
      r.embedding = embed (t₂ ++ tr₂) := by
  obtain ⟨r₁, hr₁, hid₁, hurl₁, hrest₁⟩ := save_found embed s u t₁ tr₁ a₁ n₁
  have hsecond : (save embed (save embed s u t₁ tr₁ a₁ n₁).2 u t₂ tr₂ a₂ n₂).1 = r₁.id := by
    generalize hS : (save embed s u t₁ tr₁ a₁ n₁).2 = S₁ at hr₁ ⊢
    simp only [save, hr₁]
  obtain ⟨r₂, hr₂, hid₂, hurl₂, ht₂, htr₂, ha₂, he₂⟩ :=
    save_found embed (save embed s u t₁ tr₁ a₁ n₁).2 u t₂ tr₂ a₂ n₂
  have h₁ : countUrl (save embed s u t₁ tr₁ a₁ n₁).2 u = 1 :=
    countUrl_save embed s u t₁ tr₁ a₁ n₁ h
  refine ⟨?_, ?_, r₂, hr₂, ?_, ht₂, htr₂, ha₂, he₂⟩
  · rw [hsecond, hid₁]
  · exact countUrl_save embed _ u t₂ tr₂ a₂ n₂ (by omega)
  · rw [hid₂, hsecond, hid₁]

/-- C7 witness: on an empty transcript store, saving a url and then saving
it again returns the same id and leaves a single record. -/
theorem transcriptStore_save_upsert_witness :
    (save (fun _ => [1]) (save (fun _ => [1]) { records := [], next_id := 0 }
        "u1" "T1" "B1" "P1" 5).2 "u1" "T2" "B2" "P2" 7).1
      = (save (fun _ => [1]) { records := [], next_id := 0 } "u1" "T1" "B1" "P1" 5).1 ∧
    countUrl (save (fun _ => [1]) (save (fun _ => [1]) { records := [], next_id := 0 }
        "u1" "T1" "B1" "P1" 5).2 "u1" "T2" "B2" "P2" 7).2 "u1" = 1 :=
  ⟨(transcriptStore_save_upsert (fun _ => [1]) { records := [], next_id := 0 }
      "u1" "T1" "B1" "P1" "T2" "B2" "P2" 5 7 (by decide)).1,
   (transcriptStore_save_upsert (fun _ => [1]) { records := [], next_id := 0 }
      "u1" "T1" "B1" "P1" "T2" "B2" "P2" 5 7 (by decide)).2.1⟩

/-! ## Eviction and promotion independence -/

/-- Modelled from the spec: the per-session memory state — the short-term
buffer together with the shared Long-Term Store.  The spec treats eviction
and promotion as independent operations. -/
structure MemoryState where
  buffer : ShortTermBuffer MemoryItem
  store : LongTermStore
  deriving Repr, DecidableEq

/-- Modelled from the spec: capturing an interaction adds the memory to the
short-term buffer, evicting the oldest item on capacity overflow; the
eviction touches only the buffer, never the Long-Term Store. -/
def captureInteraction (st : MemoryState) (m : MemoryItem) :
    MemoryState × Option MemoryItem :=
  let step := st.buffer.add m
  ({ st with buffer := step.1 }, step.2)

/-- C8: short-term eviction never deletes an already-promoted copy — a
capture, including any eviction it performs, leaves the Long-Term Store
(and so every promoted item's entry) unchanged, in particular when the
evicted item is exactly the promoted one. -/
theorem eviction_preserves_longTermStore (st : MemoryState) (m x : MemoryItem)
    (hprom : containsId st.store m.id = true) :
    (captureInteraction st x).1.store = st.store ∧
    containsId (captureInteraction st x).1.store m.id = true ∧
    ((captureInteraction st x).2 = some m →
      (captureInteraction st x).1.store.entries.filter (fun e => e.id == m.id)
        = st.store.entries.filter (fun e => e.id == m.id)) :=
  ⟨rfl, hprom, fun _ => rfl⟩

/-- Sample combined state: a full one-slot buffer holding the promoted
sample item, which is also present in the long-term store. -/
def sampleMemoryState : MemoryState :=
  { buffer := { capacity := 1, items := [sampleItem] },
    store := { entries := [sampleItem], dimension := 2 } }

/-- C8 witness: capturing a new interaction evicts the promoted sample item
from the full buffer while its Long-Term Store entry survives unchanged. -/
theorem eviction_preserves_longTermStore_witness :
    (captureInteraction sampleMemoryState sampleItem2).2 = some sampleItem ∧
    (captureInteraction sampleMemoryState sampleItem2).1.store = sampleMemoryState.store ∧
    containsId (captureInteraction sampleMemoryState sampleItem2).1.store
      sampleItem.id = true :=
  ⟨by rfl,
   (eviction_preserves_longTermStore sampleMemoryState sampleItem sampleItem2 (by rfl)).1,
   (eviction_preserves_longTermStore sampleMemoryState sampleItem sampleItem2 (by rfl)).2.1⟩

end TellyChat
